import Mathlib

/-!
Verification of the benchmark comparison engine of cob (main.go).

Modelling conventions:
* Go float64 values are modelled as exact rationals; arithmetic on them is exact.
* Go uint64 values are modelled as naturals; Go uint64 subtraction wraps, which
  is modelled by adding 2^64 before subtracting and reducing modulo 2^64
  (this agrees with Go for operands below 2^64).
* Go maps (parse.Set) are modelled as association lists whose list order is the
  (nondeterministic) iteration order of the map; map keys are unique, so the
  key list of a well-formed set has no duplicates.
* fmt.Sprintf "%.2f%%" applied to a nonnegative value is modelled by
  sprintf2fPct, rounding to the nearest hundredth (half up).
-/

namespace Cob

/-- Model of parse.Benchmark, restricted to the fields main.go reads:
NsPerOp is a float64 and AllocedBytesPerOp is a uint64 in the Go source. -/
structure Benchmark where
  Name : String
  NsPerOp : ℚ
  AllocedBytesPerOp : ℕ
  deriving DecidableEq

/-- Model of parse.Set: a map from benchmark name to the ordered record list,
as an association list in map iteration order. -/
abbrev BenchmarkSet := List (String × List Benchmark)

/-- Model of the struct result of main.go (lines 19-23). -/
structure result where
  Name : String
  RatioNsPerOp : ℚ
  RatioAllocedBytesPerOp : ℚ
  deriving DecidableEq

/-- Ratio computation of run (main.go lines 120-140) for one matched pair of
records: each ratio is zero-initialized and only assigned when the baseline
metric is nonzero; the bytes difference is Go uint64 subtraction, which wraps
modulo 2^64. -/
def comparePair (benchName : String) (prevBench headBench : Benchmark) : result :=
  let ratioNsPerOp : ℚ :=
    if prevBench.NsPerOp ≠ 0 then
      (headBench.NsPerOp - prevBench.NsPerOp) / prevBench.NsPerOp
    else 0
  let ratioAllocedBytesPerOp : ℚ :=
    if prevBench.AllocedBytesPerOp ≠ 0 then
      (((headBench.AllocedBytesPerOp + 2 ^ 64 - prevBench.AllocedBytesPerOp) % 2 ^ 64 : ℕ) : ℚ)
        / (prevBench.AllocedBytesPerOp : ℚ)
    else 0
  ⟨benchName, ratioNsPerOp, ratioAllocedBytesPerOp⟩

/-- Comparison loop of run (main.go lines 110-141): iterate the candidate
(HEAD) set in map iteration order; skip a name that is missing from the
baseline set and a name whose record list is empty on either side; compare the
first record of each side. -/
def compareSets (headSet prevSet : BenchmarkSet) : List result :=
  headSet.filterMap fun entry =>
    match List.lookup entry.1 prevSet with
    | none => none
    | some prevBenchmarks =>
      match entry.2, prevBenchmarks with
      | headBench :: _, prevBench :: _ => some (comparePair entry.1 prevBench headBench)
      | _, _ => none

/-- Decimal digit character: the character for a digit value below ten. -/
def digitChar (d : ℕ) : Char := Char.ofNat (48 + d)

/-- Fuel-bounded digit expansion; the fuel is always sufficient when it is at
least the number itself plus one. -/
def natCharsAux (fuel n : ℕ) : List Char :=
  match fuel with
  | 0 => []
  | fuel + 1 =>
    if n < 10 then [digitChar n]
    else natCharsAux fuel (n / 10) ++ [digitChar (n % 10)]

/-- Decimal digit characters of a natural number, most significant first. -/
def natChars (n : ℕ) : List Char := natCharsAux (n + 1) n

/-- Two decimal digit characters, zero padded (the fractional part). -/
def pad2Chars (n : ℕ) : List Char :=
  if n < 10 then '0' :: natChars n else natChars n

/-- Model of fmt.Sprintf "%.2f%%" for a nonnegative float argument: round to
the nearest hundredth (half up) and print the magnitude with exactly two
digits after the decimal point, followed by a percent sign. main.go only
passes nonnegative values to this verb. -/
def sprintf2fPct (x : ℚ) : String :=
  let y : ℚ := x * 100 + 1 / 2
  let c : ℕ := y.num.toNat / y.den
  ⟨natChars (c / 100) ++ '.' :: (pad2Chars (c % 100) ++ ['%'])⟩

/-- generateRatioItem (main.go lines 237-245): clamp small magnitudes to zero,
then format the magnitude of the (possibly clamped) percentage. -/
def generateRatioItem ( ratio : ℚ) : String :=
  let r := if -(1 / 10000 : ℚ) < ratio ∧ ratio < 1 / 10000 then (0 : ℚ) else ratio
  if 0 ≤ r then sprintf2fPct (100 * r) else sprintf2fPct (-100 * r)

/-- Model of the tablewriter color attribute lists used by main.go. -/
inductive TWColor where
  | neutral
  | boldHiRed
  | boldBlue
  deriving DecidableEq

/-- generateColor (main.go lines 247-252). -/
def generateColor ( ratio : ℚ) : TWColor :=
  if ratio > 0 then TWColor.boldHiRed else TWColor.boldBlue

/-- One rendered row of the comparison table: the cell texts together with the
color list passed to table.Rich (main.go lines 222-230). -/
structure Row where
  cells : List String
  colors : List TWColor
  deriving DecidableEq

/-- Construction of the row and colors for one result (main.go lines 222-230):
the bytes cell is appended only in benchmem mode, while the color list always
carries a color for both ratios. -/
def richRow (benchmem : Bool) (res : result) : Row :=
  { cells := [res.Name, generateRatioItem res.RatioNsPerOp] ++
      (if benchmem then [generateRatioItem res.RatioAllocedBytesPerOp] else []),
    colors := [TWColor.neutral, generateColor res.RatioNsPerOp,
      generateColor res.RatioAllocedBytesPerOp] }

/-- showRatio (main.go lines 201-235): returns the final degression flag and
the rendered comparison rows. With onlyDegression set, a result is skipped
exactly when both of its ratios are at most the threshold; every result that
is not skipped sets the flag. -/
def showRatio (benchmem : Bool) (threshold : ℚ) (onlyDegression : Bool) :
    List result → Bool × List Row
  | [] => (false, [])
  | res :: rest =>
    if onlyDegression ∧ res.RatioNsPerOp ≤ threshold ∧ res.RatioAllocedBytesPerOp ≤ threshold then
      showRatio benchmem threshold onlyDegression rest
    else
      (true, richRow benchmem res :: ( showRatio benchmem threshold onlyDegression rest).2)

/-- Truncation of every record list of a set to its first element. -/
def firstRecordOnly (s : BenchmarkSet) : BenchmarkSet :=
  s.map fun entry => (entry.1, entry.2.take 1)

/-- The display clamp described by the spec: a ratio whose magnitude is below
0.0001 is shown as exactly zero. -/
def epsClamp (r : ℚ) : ℚ := if |r| < 1 / 10000 then 0 else r

/-- The condition under which the comparison loop of run emits a result for an
entry of the candidate set: the name is present in the baseline set and both
record lists are non-empty. -/
def qualifies (prevSet : BenchmarkSet) (entry : String × List Benchmark) : Bool :=
  match List.lookup entry.1 prevSet with
  | none => false
  | some prevBenchmarks => !entry.2.isEmpty && !prevBenchmarks.isEmpty

/-- The orchestration steps of run (main.go lines 65-108), in source order. -/
inductive Step where
  | openRepo
  | resolveHead
  | resolvePrev
  | getWorktree
  | resetToPrev
  | benchBaseline
  | resetToHead
  | benchCandidate
  deriving DecidableEq

/-- Environment of external collaborators for run (main.go lines 65-108):
git.PlainOpen, r.Head, r.ResolveRevision "HEAD~1", r.Worktree, w.Reset to a
commit, and runBenchmark with the worktree at a commit. Commits are modelled
as naturals. -/
structure GitEnv where
  openResult : Except String Unit
  headResult : Except String Nat
  prevResult : Except String Nat
  worktreeResult : Except String Unit
  resetResult : Nat → Except String Unit
  benchResult : Nat → Except String BenchmarkSet

/-- Outcome of the orchestration: the returned value or wrapped error, the
commit the worktree is left at, and the trace of executed steps. -/
structure RunOutcome where
  res : Except String (BenchmarkSet × BenchmarkSet)
  tree : Nat
  trace : List Step

/-- All eight orchestration steps in the order run executes them. -/
def fullTrace : List Step :=
  [.openRepo, .resolveHead, .resolvePrev, .getWorktree,
   .resetToPrev, .benchBaseline, .resetToHead, .benchCandidate]

/-- Orchestration of run (main.go lines 65-108): open the repository, resolve
HEAD, resolve HEAD~1, get the worktree, hard reset to the previous commit, run
the baseline benchmark, hard reset back to HEAD, run the candidate benchmark.
The first failing step returns its wrapped error immediately; the worktree
field tracks the commit the tree was last successfully reset to, starting at
the initial commit. Error messages are those of main.go. -/
def runGit (env : GitEnv) (init : Nat) : RunOutcome :=
  match env.openResult with
  | .error e => ⟨.error ("unable to open the git repository: " ++ e), init, [.openRepo]⟩
  | .ok _ =>
    match env.headResult with
    | .error e => ⟨.error ("unable to get the reference where HEAD is pointing to: " ++ e),
        init, [.openRepo, .resolveHead]⟩
    | .ok head =>
      match env.prevResult with
      | .error e => ⟨.error ("unable to resolves revision to corresponding hash: " ++ e),
          init, [.openRepo, .resolveHead, .resolvePrev]⟩
      | .ok prev =>
        match env.worktreeResult with
        | .error e => ⟨.error ("unable to get a worktree based on the given fs: " ++ e),
            init, [.openRepo, .resolveHead, .resolvePrev, .getWorktree]⟩
        | .ok _ =>
          match env.resetResult prev with
          | .error e => ⟨.error ("failed to reset the worktree to a previous commit: " ++ e),
              init, [.openRepo, .resolveHead, .resolvePrev, .getWorktree, .resetToPrev]⟩
          | .ok _ =>
            match env.benchResult prev with
            | .error e => ⟨.error ("failed to run a benchmark: " ++ e),
                prev, [.openRepo, .resolveHead, .resolvePrev, .getWorktree,
                       .resetToPrev, .benchBaseline]⟩
            | .ok prevSet =>
              match env.resetResult head with
              | .error e => ⟨.error ("failed to reset the worktree to HEAD: " ++ e),
                  prev, [.openRepo, .resolveHead, .resolvePrev, .getWorktree,
                         .resetToPrev, .benchBaseline, .resetToHead]⟩
              | .ok _ =>
                match env.benchResult head with
                | .error e => ⟨.error ("failed to run a benchmark: " ++ e), head, fullTrace⟩
                | .ok headSet => ⟨.ok (prevSet, headSet), head, fullTrace⟩

section AssocLemmas

variable {β : Type}

/-- A successful lookup comes from a pair of the list. -/
theorem lookup_mem {l : List (String × β)} {k : String} {v : β}
    (h : List.lookup k l = some v) : (k, v) ∈ l := by
  induction l with
  | nil => simp [List.lookup] at h
  | cons e t ih =>
    obtain ⟨a, b⟩ := e
    rw [List.lookup] at h
    rcases hk : (k == a) with _ | _
    · rw [hk] at h
      exact List.mem_cons_of_mem _ (ih h)
    · rw [hk] at h
      obtain rfl : b = v := by simpa using h
      obtain rfl : k = a := by simpa using hk
      exact List.mem_cons_self _ _

/-- A failing lookup means the key is absent. -/
theorem lookup_eq_none_iff {l : List (String × β)} {k : String} :
    List.lookup k l = none ↔ k ∉ l.map Prod.fst := by
  induction l with
  | nil => simp [List.lookup]
  | cons e t ih =>
    obtain ⟨a, b⟩ := e
    rw [List.lookup]
    rcases hk : (k == a) with _ | _
    · have hne : k ≠ a := by simpa using hk
      simp [hk, ih, hne]
    · obtain rfl : k = a := by simpa using hk
      simp

/-- With duplicate-free keys, every pair of the list is found by lookup. -/
theorem mem_lookup_of_nodup {l : List (String × β)} (hnd : (l.map Prod.fst).Nodup)
    {k : String} {v : β} (hm : (k, v) ∈ l) : List.lookup k l = some v := by
  induction l with
  | nil => simp at hm
  | cons e t ih =>
    obtain ⟨a, b⟩ := e
    rw [List.map_cons, List.nodup_cons] at hnd
    rcases List.mem_cons.mp hm with he | ht
    · obtain ⟨rfl, rfl⟩ := Prod.mk.injEq .. ▸ he
      simp [List.lookup]
    · have hne : k ≠ a := by
        rintro rfl
        exact hnd.1 (List.mem_map.mpr ⟨(k, v), ht, rfl⟩)
      rw [List.lookup]
      have hk : (k == a) = false := by simpa using hne
      rw [hk]
      exact ih hnd.2 ht

/-- Lookup into a map is independent of the iteration order: two
permutations of the same duplicate-free association list agree on every
lookup. -/
theorem lookup_eq_of_perm {l₁ l₂ : List (String × β)} (hnd : (l₁.map Prod.fst).Nodup)
    (hp : l₁.Perm l₂) (k : String) : List.lookup k l₁ = List.lookup k l₂ := by
  have hnd₂ : (l₂.map Prod.fst).Nodup := ((hp.map Prod.fst).nodup_iff).mp hnd
  rcases hl : List.lookup k l₁ with _ | v
  · rw [lookup_eq_none_iff] at hl
    symm
    rw [lookup_eq_none_iff]
    intro hk
    exact hl (((hp.map Prod.fst).mem_iff).mpr hk)
  · exact (mem_lookup_of_nodup hnd₂ (hp.mem_iff.mp (lookup_mem hl))).symm

end AssocLemmas

/-- Lookup into the head-truncated set is the truncation of the lookup. -/
theorem lookup_firstRecordOnly (s : BenchmarkSet) (k : String) :
    List.lookup k (firstRecordOnly s) = (List.lookup k s).map (fun l => l.take 1) := by
  induction s with
  | nil => simp [firstRecordOnly, List.lookup]
  | cons e t ih =>
    obtain ⟨a, b⟩ := e
    simp only [firstRecordOnly, List.map_cons] at ih ⊢
    rw [List.lookup, List.lookup]
    rcases hk : (k == a) with _ | _
    · simpa using ih
    · simp

/-- Every character produced by the digit expansion is a decimal digit. -/
theorem natCharsAux_digits (fuel : ℕ) : ∀ n : ℕ, ∀ c ∈ natCharsAux fuel n, c.isDigit = true := by
  induction fuel with
  | zero => intro n c hc; simp [natCharsAux] at hc
  | succ fuel ih =>
    intro n c hc
    rw [natCharsAux] at hc
    split at hc
    · next h =>
      rw [List.mem_singleton] at hc
      subst hc
      unfold digitChar
      interval_cases n <;> decide
    · next h =>
      rcases List.mem_append.mp hc with hc | hc
      · exact ih (n / 10) c hc
      · rw [List.mem_singleton] at hc
        subst hc
        unfold digitChar
        have hm : n % 10 < 10 := Nat.mod_lt _ (by omega)
        set m := n % 10 with hdef
        interval_cases m <;> decide

/-- Every character of natChars is a decimal digit. -/
theorem natChars_digits (n : ℕ) : ∀ c ∈ natChars n, c.isDigit = true :=
  natCharsAux_digits (n + 1) n

/-- Digit expansion of a single-digit number. -/
theorem natChars_lt_ten {n : ℕ} (h : n < 10) : natChars n = [digitChar n] := by
  unfold natChars natCharsAux
  simp [h]

/-- Every character of the padded fractional part is a decimal digit. -/
theorem pad2Chars_digits (n : ℕ) : ∀ c ∈ pad2Chars n, c.isDigit = true := by
  unfold pad2Chars
  split
  · intro c hc
    rcases List.mem_cons.mp hc with rfl | hc
    · decide
    · exact natChars_digits n c hc
  · exact natChars_digits n

/-- The padded fractional part of a value below 100 has exactly two digits. -/
theorem pad2Chars_length {n : ℕ} (hn : n < 100) : (pad2Chars n).length = 2 := by
  unfold pad2Chars
  split
  · next h => rw [natChars_lt_ten h]; rfl
  · next h =>
    rw [natChars]
    rw [natCharsAux]
    have h10 : ¬ n < 10 := h
    simp only [h10, if_false]
    have hq : n / 10 < 10 := by omega
    have : natCharsAux n (n / 10) = [digitChar (n / 10)] := by
      rcases n with _ | m
      · omega
      · rw [natCharsAux]
        simp [hq]
    rw [this]
    rfl

/-- A digit character is neither a minus nor a plus sign. -/
theorem isDigit_ne_sign {c : Char} (h : c.isDigit = true) : c ≠ '-' ∧ c ≠ '+' := by
  constructor <;> rintro rfl <;> exact absurd h (by decide)

/-- Numerator and denominator of a fraction given in lowest terms. -/
theorem num_den_of_coprime (a : ℤ) (b : ℕ) (hb : b ≠ 0) (hco : a.natAbs.Coprime b) :
    ((a : ℚ) / (b : ℚ)).num = a ∧ ((a : ℚ) / (b : ℚ)).den = b := by
  have h : ((a : ℚ) / (b : ℚ)) = (⟨a, b, hb, hco⟩ : ℚ) := by
    rw [Rat.mk'_eq_divInt, Rat.divInt_eq_div]
    norm_num
  rw [h]
  exact ⟨rfl, rfl⟩

/-- Evaluation rule for the percent formatter: if the scaled-and-shifted
argument is the fraction a / b in lowest terms, the printed digits come from
the natural number a.toNat / b. -/
theorem sprintf2fPct_eval (x : ℚ) (a : ℤ) (b : ℕ) (hb : b ≠ 0) (hco : a.natAbs.Coprime b)
    (hx : x * 100 + 1 / 2 = (a : ℚ) / (b : ℚ)) :
    sprintf2fPct x =
      ⟨natChars (a.toNat / b / 100) ++ '.' :: (pad2Chars (a.toNat / b % 100) ++ ['%'])⟩ := by
  simp only [sprintf2fPct]
  rw [hx, (num_den_of_coprime a b hb hco).1, (num_den_of_coprime a b hb hco).2]

/-- Branch of generateRatioItem for a clamped (small-magnitude) ratio. -/
theorem generateRatioItem_clamped {r : ℚ} (h1 : -(1 / 10000) < r) (h2 : r < 1 / 10000) :
    generateRatioItem r = sprintf2fPct (100 * 0) := by
  unfold generateRatioItem
  rw [if_pos (⟨h1, h2⟩ : -(1 / 10000 : ℚ) < r ∧ r < 1 / 10000), if_pos (le_refl (0 : ℚ))]

/-- Branch of generateRatioItem for an unclamped nonnegative ratio. -/
theorem generateRatioItem_nonneg {r : ℚ} (h1 : ¬(-(1 / 10000) < r ∧ r < 1 / 10000))
    (h2 : 0 ≤ r) : generateRatioItem r = sprintf2fPct (100 * r) := by
  unfold generateRatioItem
  rw [if_neg h1, if_pos h2]

/-- Branch of generateRatioItem for an unclamped negative ratio. -/
theorem generateRatioItem_neg {r : ℚ} (h1 : ¬(-(1 / 10000) < r ∧ r < 1 / 10000))
    (h2 : r < 0) : generateRatioItem r = sprintf2fPct (-100 * r) := by
  unfold generateRatioItem
  rw [if_neg h1, if_neg (not_le.mpr h2)]

/-- The formatter output for the clamped value is the zero-percent cell. -/
theorem sprintf2fPct_zero : sprintf2fPct (100 * 0) = "0.00%" := by
  rw [sprintf2fPct_eval (100 * (0 : ℚ)) 1 2 (by norm_num) (by decide) (by norm_num)]
  decide

/-- Any ratio strictly between zero and the display epsilon renders as the
zero-percent cell. -/
theorem generateRatioItem_small_pos {r : ℚ} (h1 : 0 < r) (h2 : r < 1 / 10000) :
    generateRatioItem r = "0.00%" := by
  rw [generateRatioItem_clamped (lt_trans (by norm_num) h1) h2, sprintf2fPct_zero]

/-- The name of a computed comparison is the candidate entry's key. -/
theorem comparePair_Name (n : String) (pb hb : Benchmark) : (comparePair n pb hb).Name = n := rfl

/-- The names of the comparison output are exactly the keys of the candidate
entries that qualify, in candidate iteration order. -/
theorem compareSets_names (h p : BenchmarkSet) :
    (compareSets h p).map result.Name = (List.filter (qualifies p) h).map Prod.fst := by
  induction h with
  | nil => rfl
  | cons e t ih =>
    obtain ⟨k, recs⟩ := e
    simp only [compareSets] at ih ⊢
    rw [List.filterMap_cons, List.filter_cons]
    rcases hl : List.lookup k p with _ | pl
    · simp only [qualifies, hl]
      simpa using ih
    · rcases recs with _ | ⟨hb, hrest⟩
      · simp only [qualifies, hl, List.isEmpty_nil]
        simpa using ih
      · rcases pl with _ | ⟨pb, prest⟩
        · simp only [qualifies, hl, List.isEmpty_nil]
          simpa using ih
        · simp only [qualifies, hl, List.isEmpty_cons]
          simpa [comparePair_Name] using ih

/-- C4: for every pair of BenchmarkSets the Comparator produces exactly one
ComparisonResult per name present in both sets with a non-empty record list
in each (the output names are duplicate-free and a name occurs exactly when
both lookups succeed with non-empty lists), it produces no result for any
other name, and every output name lies in both input name sets. -/
theorem c4_comparator_name_matching (h p : BenchmarkSet)
    (hnd : (h.map Prod.fst).Nodup) :
    ((compareSets h p).map result.Name).Nodup ∧
    (∀ n : String, n ∈ (compareSets h p).map result.Name ↔
      ((∃ hl, List.lookup n h = some hl ∧ hl ≠ []) ∧
       (∃ pl, List.lookup n p = some pl ∧ pl ≠ []))) ∧
    (∀ n : String, n ∈ (compareSets h p).map result.Name →
      n ∈ h.map Prod.fst ∧ n ∈ p.map Prod.fst) := by
  rw [compareSets_names h p]
  have hqual : ∀ k recs, qualifies p (k, recs) = true ↔
      (recs ≠ [] ∧ ∃ pl, List.lookup k p = some pl ∧ pl ≠ []) := by
    intro k recs
    rcases hl : List.lookup k p with _ | pl
    · simp [qualifies, hl]
    · rcases recs with _ | ⟨b, recs⟩ <;> rcases pl with _ | ⟨c, pl⟩ <;> simp [qualifies, hl]
  have hmemiff : ∀ n : String, n ∈ (List.filter (qualifies p) h).map Prod.fst ↔
      ((∃ hl, List.lookup n h = some hl ∧ hl ≠ []) ∧
       (∃ pl, List.lookup n p = some pl ∧ pl ≠ [])) := by
    intro n
    constructor
    · intro hn
      obtain ⟨⟨k, recs⟩, hef, hk⟩ := List.mem_map.mp hn
      obtain ⟨hmem, hq⟩ := List.mem_filter.mp hef
      obtain ⟨hne, pl, hpl, hplne⟩ := (hqual k recs).mp hq
      have hk2 : k = n := hk
      subst hk2
      exact ⟨⟨recs, mem_lookup_of_nodup hnd hmem, hne⟩, ⟨pl, hpl, hplne⟩⟩
    · rintro ⟨⟨hl, hlk, hlne⟩, ⟨pl, hpk, hpne⟩⟩
      exact List.mem_map.mpr ⟨(n, hl),
        List.mem_filter.mpr ⟨lookup_mem hlk, (hqual n hl).mpr ⟨hlne, pl, hpk, hpne⟩⟩, rfl⟩
  refine ⟨List.Nodup.sublist ((List.filter_sublist h).map Prod.fst) hnd, hmemiff, ?_⟩
  intro n hn
  obtain ⟨⟨hl, hlk, _⟩, ⟨pl, hpk, _⟩⟩ := (hmemiff n).mp hn
  exact ⟨List.mem_map.mpr ⟨(n, hl), lookup_mem hlk, rfl⟩,
    List.mem_map.mpr ⟨(n, pl), lookup_mem hpk, rfl⟩⟩

/-- C4 witness: the matching theorem applied at a concrete pair of sets, with
the duplicate-free-keys hypothesis discharged by evaluation. -/
theorem c4_comparator_name_matching_witness :
    (([("BenchA", [(⟨"BenchA", 100, 0⟩ : Benchmark)])].map Prod.fst).Nodup) ∧
    ((compareSets [("BenchA", [⟨"BenchA", 100, 0⟩])]
        [("BenchA", [⟨"BenchA", 90, 0⟩]), ("BenchC", [⟨"BenchC", 5, 0⟩])]).map result.Name).Nodup ∧
    ("BenchA" ∈ (compareSets [("BenchA", [⟨"BenchA", 100, 0⟩])]
        [("BenchA", [⟨"BenchA", 90, 0⟩]), ("BenchC", [⟨"BenchC", 5, 0⟩])]).map result.Name ↔
      ((∃ hl, List.lookup "BenchA" [("BenchA", [(⟨"BenchA", 100, 0⟩ : Benchmark)])] = some hl ∧ hl ≠ []) ∧
       (∃ pl, List.lookup "BenchA"
          [("BenchA", [(⟨"BenchA", 90, 0⟩ : Benchmark)]), ("BenchC", [⟨"BenchC", 5, 0⟩])] = some pl ∧ pl ≠ []))) :=
  ⟨by simp,
   (c4_comparator_name_matching _ _ (by simp)).1,
   (c4_comparator_name_matching _ _ (by simp)).2.1 "BenchA"⟩

/-- Head-entry unfolding of the truncation. -/
theorem firstRecordOnly_cons (k : String) (recs : List Benchmark) (t : BenchmarkSet) :
    firstRecordOnly ((k, recs) :: t) = (k, recs.take 1) :: firstRecordOnly t := rfl

/-- C6: only the first record of each matched name's list influences the
Comparator: truncating every record list of both sets to its first element
leaves the output unchanged, so records after the first are ignored. -/
theorem c6_first_record_wins (h p : BenchmarkSet) :
    compareSets (firstRecordOnly h) (firstRecordOnly p) = compareSets h p := by
  induction h with
  | nil => rfl
  | cons e t ih =>
    obtain ⟨k, recs⟩ := e
    rw [firstRecordOnly_cons]
    simp only [compareSets, List.filterMap_cons] at ih ⊢
    rw [lookup_firstRecordOnly p k]
    rcases hl : List.lookup k p with _ | pl
    · simpa [hl] using ih
    · rcases recs with _ | ⟨hb, hrest⟩
      · simpa [hl] using ih
      · rcases pl with _ | ⟨pb, prest⟩
        · simpa [hl] using ih
        · simpa [hl] using ih

/-- The comparison depends on the baseline set only through lookups. -/
theorem compareSets_congr_lookup (h : BenchmarkSet) {p₁ p₂ : BenchmarkSet}
    (hl : ∀ k, List.lookup k p₁ = List.lookup k p₂) :
    compareSets h p₁ = compareSets h p₂ := by
  unfold compareSets
  refine List.filterMap_congr ?_
  intro e _
  rw [hl e.1]

/-- C9 counterexample: the two orders in which an iteration of the candidate
map {BenchP, BenchQ} may be presented are permutations of one another, yet
the Comparator returns differently ordered sequences for them, so invoking
the Comparator twice on the same two immutable BenchmarkSets need not yield
identical sequences. -/
theorem c9_counterexample :
    (([("BenchP", [⟨"BenchP", 1, 0⟩]), ("BenchQ", [⟨"BenchQ", 3, 0⟩])] : BenchmarkSet).Perm
      [("BenchQ", [⟨"BenchQ", 3, 0⟩]), ("BenchP", [⟨"BenchP", 1, 0⟩])]) ∧
    compareSets [("BenchP", [⟨"BenchP", 1, 0⟩]), ("BenchQ", [⟨"BenchQ", 3, 0⟩])]
        [("BenchP", [⟨"BenchP", 2, 0⟩]), ("BenchQ", [⟨"BenchQ", 4, 0⟩])] ≠
      compareSets [("BenchQ", [⟨"BenchQ", 3, 0⟩]), ("BenchP", [⟨"BenchP", 1, 0⟩])]
        [("BenchP", [⟨"BenchP", 2, 0⟩]), ("BenchQ", [⟨"BenchQ", 4, 0⟩])] := by
  constructor
  · exact List.Perm.swap _ _ _
  · have h1 : compareSets [("BenchP", [⟨"BenchP", 1, 0⟩]), ("BenchQ", [⟨"BenchQ", 3, 0⟩])]
        [("BenchP", [⟨"BenchP", 2, 0⟩]), ("BenchQ", [⟨"BenchQ", 4, 0⟩])] =
        [⟨"BenchP", -(1 / 2), 0⟩, ⟨"BenchQ", -(1 / 4), 0⟩] := by
      simp [compareSets, comparePair, List.lookup, List.filterMap]
      norm_num
    have h2 : compareSets [("BenchQ", [⟨"BenchQ", 3, 0⟩]), ("BenchP", [⟨"BenchP", 1, 0⟩])]
        [("BenchP", [⟨"BenchP", 2, 0⟩]), ("BenchQ", [⟨"BenchQ", 4, 0⟩])] =
        [⟨"BenchQ", -(1 / 4), 0⟩, ⟨"BenchP", -(1 / 2), 0⟩] := by
      simp [compareSets, comparePair, List.lookup, List.filterMap]
      norm_num
    rw [h1, h2]
    intro hc
    simp at hc

/-- C9 amended: two invocations of the Comparator on the same two immutable
BenchmarkSets (whose iteration orders are permutations of one another, the
baseline with duplicate-free keys) yield the same results up to order. -/
theorem c9_amended_same_up_to_perm (h₁ h₂ p₁ p₂ : BenchmarkSet) (hh : h₁.Perm h₂)
    (hp : p₁.Perm p₂) (hnd : (p₁.map Prod.fst).Nodup) :
    (compareSets h₁ p₁).Perm (compareSets h₂ p₂) := by
  rw [compareSets_congr_lookup h₁ (lookup_eq_of_perm hnd hp)]
  exact List.Perm.filterMap _ hh

/-- C9 amended witness: the permutation theorem applied at concrete sets. -/
theorem c9_amended_same_up_to_perm_witness :
    (compareSets [("BenchP", [⟨"BenchP", 1, 0⟩])] [("BenchP", [⟨"BenchP", 2, 0⟩])]).Perm
      (compareSets [("BenchP", [⟨"BenchP", 1, 0⟩])] [("BenchP", [⟨"BenchP", 2, 0⟩])]) :=
  c9_amended_same_up_to_perm _ _ _ _ (List.Perm.refl _) (List.Perm.refl _) (by simp)

/-- C1: code behavior at the claim's particular input. With onlyDegression
unset and threshold 0.1, a single result whose time ratio is 0.05 and whose
bytes ratio is 0 already makes showRatio report a degression, although
neither ratio exceeds the threshold: line 221 of main.go sets the flag for
every rendered result. -/
theorem c1_gate_code_behavior :
    ( showRatio false (1 / 10) false [⟨"BenchA", 1 / 20, 0⟩]).1 = true ∧
    ¬((1 : ℚ) / 20 > 1 / 10) ∧ ¬((0 : ℚ) > 1 / 10) := by
  refine ⟨?_, by norm_num, by norm_num⟩
  simp only [showRatio]
  rw [if_neg (by simp)]

/-- C2: code behavior at a matched pair whose candidate allocates fewer bytes
than the baseline. The uint64 subtraction of AllocedBytesPerOp wraps modulo
2^64, so the computed bytes ratio is (2^64 - 50) / 100 rather than the
claimed (candidate - baseline) / baseline = -1/2. -/
theorem c2_bytes_ratio_code_behavior :
    (comparePair "BenchA" ⟨"BenchA", 100, 100⟩ ⟨"BenchA", 100, 50⟩).RatioAllocedBytesPerOp =
      (18446744073709551566 : ℚ) / 100 ∧
    (18446744073709551566 : ℚ) / 100 ≠ ((50 : ℚ) - 100) / 100 := by
  constructor
  · simp only [comparePair]
    norm_num
  · norm_num

/-- C3: code behavior on the end-to-end scenario. The Comparator yields
exactly one result, for BenchA, with time ratio 0.2; the gate at threshold
0.1 reports a degression, but at threshold 0.25 with onlyDegression unset it
also reports one (line 221 of main.go), against the claimed false; only with
onlyDegression set does threshold 0.25 yield false. -/
theorem c3_scenario_code_behavior :
    compareSets [("BenchA", [⟨"BenchA", 120, 0⟩]), ("BenchB", [⟨"BenchB", 50, 0⟩])]
        [("BenchA", [⟨"BenchA", 100, 0⟩])] = [⟨"BenchA", 1 / 5, 0⟩] ∧
    ( showRatio false (1 / 10) false [⟨"BenchA", 1 / 5, 0⟩]).1 = true ∧
    ( showRatio false (1 / 4) false [⟨"BenchA", 1 / 5, 0⟩]).1 = true ∧
    ( showRatio false (1 / 4) true [⟨"BenchA", 1 / 5, 0⟩]).1 = false := by
  refine ⟨?_, ?_, ?_, ?_⟩
  · simp [compareSets, comparePair, List.lookup, List.filterMap]
    norm_num
  · simp only [showRatio]
    rw [if_neg (by simp)]
  · simp only [showRatio]
    rw [if_neg (by simp)]
  · simp only [showRatio]
    rw [if_pos (by norm_num)]

/-- C7: the gate compares the raw ratio, not the clamped display value: with
onlyDegression set and any threshold strictly below a time ratio lying
strictly between 0 and the display epsilon, the result is rendered, the
degression flag is set, and the displayed cell is still the zero-percent
cell. -/
theorem c7_raw_ratio_gate (benchmem : Bool) (t : ℚ) (res : result)
    (results : List result) (hmem : res ∈ results) (h0 : 0 < res.RatioNsPerOp)
    (heps : res.RatioNsPerOp < 1 / 10000) (ht : t < res.RatioNsPerOp) :
    ( showRatio benchmem t true results).1 = true ∧
    richRow benchmem res ∈ ( showRatio benchmem t true results).2 ∧
    generateRatioItem res.RatioNsPerOp = "0.00%" := by
  have key : ( showRatio benchmem t true results).1 = true ∧
      richRow benchmem res ∈ ( showRatio benchmem t true results).2 := by
    induction hmem with
    | head rest =>
      rw [showRatio, if_neg (fun hsk => absurd ht (not_lt.mpr hsk.2.1))]
      exact ⟨rfl, List.mem_cons_self _ _⟩
    | tail b hmem ih =>
      by_cases hskip : ((true : Bool) = true ∧ b.RatioNsPerOp ≤ t ∧ b.RatioAllocedBytesPerOp ≤ t)
      · rw [showRatio, if_pos hskip]
        exact ih
      · rw [showRatio, if_neg hskip]
        exact ⟨rfl, List.mem_cons_of_mem _ ih.2⟩
  exact ⟨key.1, key.2, generateRatioItem_small_pos h0 heps⟩

/-- C7 witness: the raw-ratio gate theorem applied at a concrete result with
ratio 0.00005 and threshold 0. -/
theorem c7_raw_ratio_gate_witness :
    (0 : ℚ) < 1 / 20000 ∧
    ( showRatio false 0 true [⟨"BenchX", 1 / 20000, 0⟩]).1 = true := by
  refine ⟨by norm_num, ?_⟩
  exact (c7_raw_ratio_gate false 0 ⟨"BenchX", 1 / 20000, 0⟩ [⟨"BenchX", 1 / 20000, 0⟩]
    (List.mem_singleton.mpr rfl) (show (0 : ℚ) < 1 / 20000 by norm_num)
    (show (1 : ℚ) / 20000 < 1 / 10000 by norm_num)
    (show (0 : ℚ) < 1 / 20000 by norm_num)).1

/-- C10: the cell color is chosen from the raw un-clamped ratio: a ratio
strictly between 0 and the display epsilon renders as the zero-percent cell
yet carries the degression color; every positive ratio gets the degression
color and every non-positive ratio the improvement color. -/
theorem c10_color_from_raw_ratio (r : ℚ) :
    (0 < r → r < 1 / 10000 →
      generateRatioItem r = "0.00%" ∧ generateColor r = TWColor.boldHiRed) ∧
    (0 < r → generateColor r = TWColor.boldHiRed) ∧
    (r ≤ 0 → generateColor r = TWColor.boldBlue) := by
  refine ⟨fun h1 h2 => ⟨generateRatioItem_small_pos h1 h2, ?_⟩, fun h1 => ?_, fun h1 => ?_⟩
  · unfold generateColor
    rw [if_pos h1]
  · unfold generateColor
    rw [if_pos h1]
  · unfold generateColor
    rw [if_neg (not_lt.mpr h1)]

/-- C10 witness: the color theorem applied at the ratios 0.00005 and -1. -/
theorem c10_color_from_raw_ratio_witness :
    (0 : ℚ) < 1 / 20000 ∧
    generateRatioItem (1 / 20000 : ℚ) = "0.00%" ∧
    generateColor (1 / 20000 : ℚ) = TWColor.boldHiRed ∧
    generateColor (-1 : ℚ) = TWColor.boldBlue := by
  refine ⟨by norm_num, ?_, ?_, ?_⟩
  · exact ((c10_color_from_raw_ratio (1 / 20000)).1 (by norm_num) (by norm_num)).1
  · exact ((c10_color_from_raw_ratio (1 / 20000)).1 (by norm_num) (by norm_num)).2
  · exact (c10_color_from_raw_ratio (-1)).2.2 (by norm_num)

/-- The characters of the formatter output, by definition. -/
theorem sprintf2fPct_data (x : ℚ) :
    (sprintf2fPct x).data =
      natChars ((x * 100 + 1 / 2).num.toNat / (x * 100 + 1 / 2).den / 100) ++
        '.' :: (pad2Chars ((x * 100 + 1 / 2).num.toNat / (x * 100 + 1 / 2).den % 100) ++ ['%']) := rfl

/-- C8: for every ratio, the rendered percentage cell is the magnitude of the
epsilon-clamped ratio times 100, printed with some leading digits, a decimal
point, exactly two fractional digits and a trailing percent sign, and never
contains a minus or plus sign; a ratio of 0.00005 displays as the
zero-percent cell, and 0.25 and -0.25 both display as "25.00%", colored as
degression and improvement respectively. -/
theorem c8_percentage_rendering : ∀ r : ℚ,
    generateRatioItem r = sprintf2fPct (100 * |epsClamp r|) ∧
    ((generateRatioItem r).data.all fun c =>
      (c.isDigit || c == '.' || c == '%') && c != '-' && c != '+') = true ∧
    (∃ a b : ℕ, b < 100 ∧ (pad2Chars b).length = 2 ∧
      (generateRatioItem r).data = natChars a ++ '.' :: (pad2Chars b ++ ['%'])) ∧
    generateRatioItem (1 / 20000 : ℚ) = "0.00%" ∧
    generateRatioItem (-(1 / 4) : ℚ) = "25.00%" ∧
    generateColor (-(1 / 4) : ℚ) = TWColor.boldBlue ∧
    generateRatioItem (1 / 4 : ℚ) = "25.00%" ∧
    generateColor (1 / 4 : ℚ) = TWColor.boldHiRed := by
  have h25 : sprintf2fPct (25 : ℚ) = "25.00%" := by
    rw [sprintf2fPct_eval 25 5001 2 (by norm_num) (by decide) (by norm_num)]
    decide
  have hpos : generateRatioItem (1 / 4 : ℚ) = "25.00%" := by
    rw [generateRatioItem_nonneg (by norm_num) (by norm_num),
      show (100 * (1 / 4) : ℚ) = 25 by norm_num, h25]
  have hneg : generateRatioItem (-(1 / 4) : ℚ) = "25.00%" := by
    rw [generateRatioItem_neg (by norm_num) (by norm_num),
      show (-100 * -(1 / 4) : ℚ) = 25 by norm_num, h25]
  have hsmall : generateRatioItem (1 / 20000 : ℚ) = "0.00%" :=
    generateRatioItem_small_pos (by norm_num) (by norm_num)
  have hcolneg : generateColor (-(1 / 4) : ℚ) = TWColor.boldBlue := by
    unfold generateColor
    rw [if_neg (by norm_num)]
  have hcolpos : generateColor (1 / 4 : ℚ) = TWColor.boldHiRed := by
    unfold generateColor
    rw [if_pos (by norm_num)]
  intro r
  have main : generateRatioItem r = sprintf2fPct (100 * |epsClamp r|) := by
    by_cases hc : |r| < 1 / 10000
    · have hc2 := abs_lt.mp hc
      rw [generateRatioItem_clamped hc2.1 hc2.2]
      unfold epsClamp
      rw [if_pos hc, abs_zero]
    · have hc2 : ¬(-(1 / 10000) < r ∧ r < 1 / 10000) := fun hh => hc (abs_lt.mpr hh)
      unfold epsClamp
      rw [if_neg hc]
      rcases le_or_lt 0 r with hr | hr
      · rw [generateRatioItem_nonneg hc2 hr, abs_of_nonneg hr]
      · rw [generateRatioItem_neg hc2 hr, abs_of_neg hr,
          show (100 * -r : ℚ) = -100 * r by ring]
  have struct : ∃ a b : ℕ, b < 100 ∧ (pad2Chars b).length = 2 ∧
      (generateRatioItem r).data = natChars a ++ '.' :: (pad2Chars b ++ ['%']) := by
    rw [main]
    exact ⟨_, _, Nat.mod_lt _ (by omega), pad2Chars_length (Nat.mod_lt _ (by omega)),
      sprintf2fPct_data _⟩
  have charset : ((generateRatioItem r).data.all fun c =>
      (c.isDigit || c == '.' || c == '%') && c != '-' && c != '+') = true := by
    obtain ⟨a, b, hb, hlen, hdata⟩ := struct
    rw [List.all_eq_true]
    intro c hc
    rw [hdata] at hc
    have hch : c.isDigit = true ∨ c = '.' ∨ c = '%' := by
      rcases List.mem_append.mp hc with h1 | h2
      · exact Or.inl (natChars_digits a c h1)
      · rcases List.mem_cons.mp h2 with rfl | h3
        · exact Or.inr (Or.inl rfl)
        · rcases List.mem_append.mp h3 with h4 | h5
          · exact Or.inl (pad2Chars_digits b c h4)
          · rw [List.mem_singleton] at h5
            exact Or.inr (Or.inr h5)
    rcases hch with hd | rfl | rfl
    · obtain ⟨hm, hp2⟩ := isDigit_ne_sign hd
      simp [hd, hm, hp2]
    · decide
    · decide
  exact ⟨main, charset, struct, hsmall, hneg, hcolneg, hpos, hcolpos⟩

/-- C5: the orchestration executes a cut of the fixed step sequence open
repository, resolve HEAD, resolve HEAD~1, get worktree, reset to the
predecessor, baseline benchmark, reset to HEAD, candidate benchmark, in that
order with no retries; the first failing step returns its wrapped error
immediately with no later step executed; in particular a baseline benchmark
failure leaves the worktree at the predecessor commit with no reset back to
HEAD; and a fully successful environment yields both sets after all eight
steps. -/
theorem c5_orchestration_order (env : GitEnv) (init : Nat) :
    (∃ rest, (runGit env init).trace ++ rest = fullTrace) ∧
    (∀ e, env.openResult = .error e →
      runGit env init =
        ⟨.error ("unable to open the git repository: " ++ e), init, [.openRepo]⟩) ∧
    (∀ e, env.openResult = .ok () → env.headResult = .error e →
      runGit env init =
        ⟨.error ("unable to get the reference where HEAD is pointing to: " ++ e), init,
          [.openRepo, .resolveHead]⟩) ∧
    (∀ hd e, env.openResult = .ok () → env.headResult = .ok hd →
      env.prevResult = .error e →
      runGit env init =
        ⟨.error ("unable to resolves revision to corresponding hash: " ++ e), init,
          [.openRepo, .resolveHead, .resolvePrev]⟩) ∧
    (∀ hd pv e, env.openResult = .ok () → env.headResult = .ok hd →
      env.prevResult = .ok pv → env.worktreeResult = .error e →
      runGit env init =
        ⟨.error ("unable to get a worktree based on the given fs: " ++ e), init,
          [.openRepo, .resolveHead, .resolvePrev, .getWorktree]⟩) ∧
    (∀ hd pv e, env.openResult = .ok () → env.headResult = .ok hd →
      env.prevResult = .ok pv → env.worktreeResult = .ok () →
      env.resetResult pv = .error e →
      runGit env init =
        ⟨.error ("failed to reset the worktree to a previous commit: " ++ e), init,
          [.openRepo, .resolveHead, .resolvePrev, .getWorktree, .resetToPrev]⟩) ∧
    (∀ hd pv e, env.openResult = .ok () → env.headResult = .ok hd →
      env.prevResult = .ok pv → env.worktreeResult = .ok () →
      env.resetResult pv = .ok () → env.benchResult pv = .error e →
      runGit env init =
        ⟨.error ("failed to run a benchmark: " ++ e), pv,
          [.openRepo, .resolveHead, .resolvePrev, .getWorktree, .resetToPrev,
           .benchBaseline]⟩) ∧
    (∀ hd pv ps e, env.openResult = .ok () → env.headResult = .ok hd →
      env.prevResult = .ok pv → env.worktreeResult = .ok () →
      env.resetResult pv = .ok () → env.benchResult pv = .ok ps →
      env.resetResult hd = .error e →
      runGit env init =
        ⟨.error ("failed to reset the worktree to HEAD: " ++ e), pv,
          [.openRepo, .resolveHead, .resolvePrev, .getWorktree, .resetToPrev,
           .benchBaseline, .resetToHead]⟩) ∧
    (∀ hd pv ps e, env.openResult = .ok () → env.headResult = .ok hd →
      env.prevResult = .ok pv → env.worktreeResult = .ok () →
      env.resetResult pv = .ok () → env.benchResult pv = .ok ps →
      env.resetResult hd = .ok () → env.benchResult hd = .error e →
      runGit env init =
        ⟨.error ("failed to run a benchmark: " ++ e), hd, fullTrace⟩) ∧
    (∀ hd pv ps hs, env.openResult = .ok () → env.headResult = .ok hd →
      env.prevResult = .ok pv → env.worktreeResult = .ok () →
      env.resetResult pv = .ok () → env.benchResult pv = .ok ps →
      env.resetResult hd = .ok () → env.benchResult hd = .ok hs →
      runGit env init = ⟨.ok (ps, hs), hd, fullTrace⟩) := by
  refine ⟨?_, ?_, ?_, ?_, ?_, ?_, ?_, ?_, ?_, ?_⟩
  · rcases ho : env.openResult with e | u
    · exact ⟨[.resolveHead, .resolvePrev, .getWorktree, .resetToPrev, .benchBaseline,
        .resetToHead, .benchCandidate], by simp [runGit, ho, fullTrace]⟩
    · obtain ⟨⟩ := u
      rcases hh : env.headResult with e | hd
      · exact ⟨[.resolvePrev, .getWorktree, .resetToPrev, .benchBaseline, .resetToHead,
          .benchCandidate], by simp [runGit, ho, hh, fullTrace]⟩
      · rcases hpv : env.prevResult with e | pv
        · exact ⟨[.getWorktree, .resetToPrev, .benchBaseline, .resetToHead,
            .benchCandidate], by simp [runGit, ho, hh, hpv, fullTrace]⟩
        · rcases hw : env.worktreeResult with e | w
          · exact ⟨[.resetToPrev, .benchBaseline, .resetToHead, .benchCandidate],
              by simp [runGit, ho, hh, hpv, hw, fullTrace]⟩
          · obtain ⟨⟩ := w
            rcases hrp : env.resetResult pv with e | u2
            · exact ⟨[.benchBaseline, .resetToHead, .benchCandidate],
                by simp [runGit, ho, hh, hpv, hw, hrp, fullTrace]⟩
            · obtain ⟨⟩ := u2
              rcases hbp : env.benchResult pv with e | ps
              · exact ⟨[.resetToHead, .benchCandidate],
                  by simp [runGit, ho, hh, hpv, hw, hrp, hbp, fullTrace]⟩
              · rcases hrh : env.resetResult hd with e | u3
                · exact ⟨[.benchCandidate],
                    by simp [runGit, ho, hh, hpv, hw, hrp, hbp, hrh, fullTrace]⟩
                · obtain ⟨⟩ := u3
                  rcases hbh : env.benchResult hd with e | hs
                  · exact ⟨[], by simp [runGit, ho, hh, hpv, hw, hrp, hbp, hrh, hbh, fullTrace]⟩
                  · exact ⟨[], by simp [runGit, ho, hh, hpv, hw, hrp, hbp, hrh, hbh, fullTrace]⟩
  · intro e h1
    simp [runGit, h1]
  · intro e h1 h2
    simp [runGit, h1, h2]
  · intro hd e h1 h2 h3
    simp [runGit, h1, h2, h3]
  · intro hd pv e h1 h2 h3 h4
    simp [runGit, h1, h2, h3, h4]
  · intro hd pv e h1 h2 h3 h4 h5
    simp [runGit, h1, h2, h3, h4, h5]
  · intro hd pv e h1 h2 h3 h4 h5 h6
    simp [runGit, h1, h2, h3, h4, h5, h6]
  · intro hd pv ps e h1 h2 h3 h4 h5 h6 h7
    simp [runGit, h1, h2, h3, h4, h5, h6, h7]
  · intro hd pv ps e h1 h2 h3 h4 h5 h6 h7 h8
    simp [runGit, h1, h2, h3, h4, h5, h6, h7, h8]
  · intro hd pv ps hs h1 h2 h3 h4 h5 h6 h7 h8
    simp [runGit, h1, h2, h3, h4, h5, h6, h7, h8]

/-- C5 witness: in an environment where everything succeeds except the
baseline benchmark run, the orchestration stops right after the baseline
benchmark step, returns the wrapped error, and leaves the worktree at the
predecessor commit 1 rather than restoring HEAD commit 2. -/
theorem c5_orchestration_order_witness :
    runGit ⟨.ok (), .ok 2, .ok 1, .ok (), fun _ => .ok (), fun _ => .error "boom"⟩ 2 =
      ⟨.error ("failed to run a benchmark: " ++ "boom"), 1,
        [.openRepo, .resolveHead, .resolvePrev, .getWorktree, .resetToPrev,
         .benchBaseline]⟩ :=
  (c5_orchestration_order ⟨.ok (), .ok 2, .ok 1, .ok (), fun _ => .ok (),
      fun _ => .error "boom"⟩ 2).2.2.2.2.2.2.1 2 1 "boom" rfl rfl rfl rfl rfl rfl

end Cob
